import Mathlib

/-!
Shallow embedding of the vegas-lattice crate (sites, edges, lattices and their
structural transformations) together with theorems settling the specification
claims about expansion, dropping, masking, alloying and serialization.

Conventions of the embedding:
* Rust `f64` values are modelled as `ℚ` (the operations used by the code are
  ring operations, comparisons and `floor`, all exact here).
* Rust `i32` is modelled as `ℤ` and `usize` as `ℕ`; the claims under study do
  not involve wrap-around of machine integers.
* Rust `%` and `/` on `i32` truncate toward zero, hence `Int.tmod`/`Int.tdiv`.
* A random number generator is modelled as an explicit stream of draws, one
  draw consumed per probabilistic decision, mirroring the explicit `rng`
  argument threaded through the Rust code.
-/

namespace VegasLattice

/-- The three spatial axes, from `util.rs`. -/
inductive Axis where
  | X
  | Y
  | Z
deriving DecidableEq, Repr

/-- Truncated remainder and quotient pair as computed by Rust `%` and `/` on
`i32`, wrapped the way `util.rs::python_mod` does: for a negative `num` it
returns `(modulus + num % modulus, num / modulus - 1)`, otherwise
`(num % modulus, num / modulus)`. -/
def python_mod (num : ℤ) (modulus : ℕ) : ℤ × ℤ :=
  if num < 0 then
    ((modulus : ℤ) + Int.tmod num modulus, Int.tdiv num modulus - 1)
  else
    (Int.tmod num modulus, Int.tdiv num modulus)

/-- A site of the lattice, from `site.rs`: a kind label, a 3D position and
optional tags. -/
structure Site where
  kind : String
  position : ℚ × ℚ × ℚ
  tags : Option (List String)
deriving DecidableEq, Repr

namespace Site

/-- Model of `Site::new`: given kind at the origin, no tags. -/
def new (kind : String) : Site :=
  { kind := kind, position := (0, 0, 0), tags := none }

/-- Model of `Site::with_position`. -/
def with_position (s : Site) (position : ℚ × ℚ × ℚ) : Site :=
  { s with position := position }

/-- Model of `Site::with_kind`. -/
def with_kind (s : Site) (kind : String) : Site :=
  { s with kind := kind }

/-- Model of `Site::move_x`. -/
def move_x (s : Site) (distance : ℚ) : Site :=
  { s with position := (s.position.1 + distance, s.position.2.1, s.position.2.2) }

/-- Model of `Site::move_y`. -/
def move_y (s : Site) (distance : ℚ) : Site :=
  { s with position := (s.position.1, s.position.2.1 + distance, s.position.2.2) }

/-- Model of `Site::move_z`. -/
def move_z (s : Site) (distance : ℚ) : Site :=
  { s with position := (s.position.1, s.position.2.1, s.position.2.2 + distance) }

/-- Dispatch of the three move functions on an axis, as `Lattice::expand_along`
does with its `match axis`. -/
def move_axis (s : Site) (axis : Axis) (distance : ℚ) : Site :=
  match axis with
  | Axis.X => s.move_x distance
  | Axis.Y => s.move_y distance
  | Axis.Z => s.move_z distance

end Site

/-- An edge of the lattice, from `edge.rs`: indices of its two endpoint sites,
the periodic translation vector `delta`, and optional tags. -/
structure Edge where
  source : ℕ
  target : ℕ
  delta : ℤ × ℤ × ℤ
  tags : Option (List String)
deriving DecidableEq, Repr

namespace Edge

/-- Model of `Edge::new`. -/
def new (source target : ℕ) (delta : ℤ × ℤ × ℤ) : Edge :=
  { source := source, target := target, delta := delta, tags := none }

/-- Model of `Edge::delta_along`. -/
def delta_along (e : Edge) (axis : Axis) : ℤ :=
  match axis with
  | Axis.X => e.delta.1
  | Axis.Y => e.delta.2.1
  | Axis.Z => e.delta.2.2

/-- Replace the delta component selected by `axis`, as the `match axis` block
at the end of `Edge::move_along` does. -/
def with_delta_along (e : Edge) (axis : Axis) (d : ℤ) : Edge :=
  match axis with
  | Axis.X => { e with delta := (d, e.delta.2.1, e.delta.2.2) }
  | Axis.Y => { e with delta := (e.delta.1, d, e.delta.2.2) }
  | Axis.Z => { e with delta := (e.delta.1, e.delta.2.1, d) }

/-- Model of `Edge::move_along`: shift both endpoints by `amount * nsites`,
recompute the target through `python_mod` over the grown site count
`limit * nsites`, and store the carry in the delta component along `axis`.
The Rust `target as usize` cast is `Int.toNat` (the value is non-negative in
every reachable call). -/
def move_along (e : Edge) (axis : Axis) (amount nsites limit : ℕ) : Edge :=
  let distance := amount * nsites
  let source := e.source + distance
  let target0 := e.target + distance
  let delta := e.delta_along axis
  let target1 : ℤ := (target0 : ℤ) + delta * (nsites : ℤ)
  let wrapped := python_mod target1 (limit * nsites)
  ({ e with source := source, target := wrapped.1.toNat }).with_delta_along axis wrapped.2

/-- Model of `Edge::reindex`. The Rust code indexes `index[self.source]`,
which panics out of bounds; here the panic-free total function uses `getD`
with an arbitrary default, and `reindex?` below witnesses in-boundedness. -/
def reindex (e : Edge) (index : List ℕ) : Edge :=
  { e with source := index.getD e.source 0, target := index.getD e.target 0 }

/-- Fallible version of `Edge::reindex` that returns `none` exactly when the
Rust code would panic on an out-of-bounds table read. -/
def reindex? (e : Edge) (index : List ℕ) : Option Edge := do
  let source ← index[e.source]?
  let target ← index[e.target]?
  pure { e with source := source, target := target }

end Edge

/-- Typed error enumeration. Modelled from the spec: the current revision's
`error.rs` defining `VegasLatticeError` is not under `src/` (only an older
`LatticeError` is); the spec's §7 taxonomy and the variant names used by
`lattice.rs` and `alloy.rs` give `InconsistentEdges`, `NegativeSize`,
`InvalidRatios` and a serialization error. -/
inductive VegasLatticeError where
  | InconsistentEdges
  | NegativeSize
  | InvalidRatios
  | JsonParseError
deriving DecidableEq, Repr

/-- A lattice, from `lattice.rs`: a 3D size plus ordered site and edge lists. -/
structure Lattice where
  size : ℚ × ℚ × ℚ
  sites : List Site
  edges : List Edge
deriving DecidableEq, Repr

namespace Lattice

/-- Model of `Lattice::try_new`. -/
def try_new (size : ℚ × ℚ × ℚ) : Except VegasLatticeError Lattice :=
  if size.1 < 0 ∨ size.2.1 < 0 ∨ size.2.2 < 0 then
    Except.error VegasLatticeError.NegativeSize
  else
    Except.ok { size := size, sites := [], edges := [] }

/-- Model of `Lattice::sc`. -/
def sc (a : ℚ) : Lattice :=
  { size := (a, a, a)
    sites := [Site.new "A"]
    edges := [Edge.new 0 0 (1, 0, 0), Edge.new 0 0 (0, 1, 0), Edge.new 0 0 (0, 0, 1)] }

/-- Model of `Lattice::bcc`. -/
def bcc (a : ℚ) : Lattice :=
  { size := (a, a, a)
    sites := [Site.new "A", (Site.new "B").with_position (a / 2, a / 2, a / 2)]
    edges :=
      [Edge.new 0 1 (0, 0, 0), Edge.new 0 1 (0, -1, 0),
       Edge.new 0 1 (-1, 0, 0), Edge.new 0 1 (-1, -1, 0),
       Edge.new 0 1 (0, 0, -1), Edge.new 0 1 (0, -1, -1),
       Edge.new 0 1 (-1, 0, -1), Edge.new 0 1 (-1, -1, -1)] }

/-- Model of `Lattice::fcc`. -/
def fcc (a : ℚ) : Lattice :=
  { size := (a, a, a)
    sites :=
      [Site.new "A", (Site.new "B").with_position (a / 2, a / 2, 0),
       (Site.new "C").with_position (a / 2, 0, a / 2),
       (Site.new "D").with_position (0, a / 2, a / 2)]
    edges :=
      [Edge.new 0 1 (0, 0, 0), Edge.new 0 1 (-1, 0, 0),
       Edge.new 0 1 (-1, -1, 0), Edge.new 0 1 (0, -1, 0),
       Edge.new 0 2 (0, 0, 0), Edge.new 0 2 (-1, 0, 0),
       Edge.new 0 2 (-1, 0, -1), Edge.new 0 2 (0, 0, -1),
       Edge.new 0 3 (0, 0, 0), Edge.new 0 3 (0, -1, 0),
       Edge.new 0 3 (0, -1, -1), Edge.new 0 3 (0, 0, -1)] }

/-- Model of `Lattice::are_edges_consistent`: every edge endpoint is a valid
site index. -/
def are_edges_consistent (l : Lattice) : Bool :=
  l.edges.all fun e => decide (e.source < l.sites.length) && decide (e.target < l.sites.length)

/-- Model of `Lattice::validate`. -/
def validate (l : Lattice) : Except VegasLatticeError Lattice :=
  if ¬ l.are_edges_consistent then
    Except.error VegasLatticeError.InconsistentEdges
  else if l.size.1 < 0 ∨ l.size.2.1 < 0 ∨ l.size.2.2 < 0 then
    Except.error VegasLatticeError.NegativeSize
  else
    Except.ok l

/-- Model of `Lattice::try_with_size`. -/
def try_with_size (l : Lattice) (size : ℚ × ℚ × ℚ) : Except VegasLatticeError Lattice :=
  Lattice.validate { l with size := size }

/-- Model of `Lattice::try_with_sites`. -/
def try_with_sites (l : Lattice) (sites : List Site) : Except VegasLatticeError Lattice :=
  Lattice.validate { l with sites := sites }

/-- Model of `Lattice::try_with_edges`. -/
def try_with_edges (l : Lattice) (edges : List Edge) : Except VegasLatticeError Lattice :=
  Lattice.validate { l with edges := edges }

/-- The invariant that `Lattice::validate` enforces, in propositional form:
every edge endpoint is a valid site index and no size component is
negative. -/
def valid (l : Lattice) : Prop :=
  (∀ e ∈ l.edges, e.source < l.sites.length ∧ e.target < l.sites.length) ∧
    0 ≤ l.size.1 ∧ 0 ≤ l.size.2.1 ∧ 0 ≤ l.size.2.2

/-- Model of `Lattice::drop_along`: retain the edges whose delta component
along `axis` is zero. -/
def drop_along (l : Lattice) (axis : Axis) : Lattice :=
  { l with edges := l.edges.filter fun e => decide (e.delta_along axis = 0) }

/-- Model of `Lattice::size_along`. -/
def size_along (l : Lattice) (axis : Axis) : ℚ :=
  match axis with
  | Axis.X => l.size.1
  | Axis.Y => l.size.2.1
  | Axis.Z => l.size.2.2

/-- Scale the size component along `axis`, as the final `match axis` of
`Lattice::expand_along` does. -/
def scale_size_along (l : Lattice) (axis : Axis) (amount : ℕ) : Lattice :=
  match axis with
  | Axis.X => { l with size := (l.size.1 * amount, l.size.2.1, l.size.2.2) }
  | Axis.Y => { l with size := (l.size.1, l.size.2.1 * amount, l.size.2.2) }
  | Axis.Z => { l with size := (l.size.1, l.size.2.1, l.size.2.2 * amount) }

/-- Model of `Lattice::expand_along`: the Rust iterator chain
`(0..amount).flat_map(|i| repeat_n(i, n)).zip(xs.iter().cycle()).map(...)`
pairs every replica index `i` with every element of `xs` in order, which is
exactly `(List.range amount).flatMap fun i => xs.map (f i)`. -/
def expand_along (l : Lattice) (axis : Axis) (amount : ℕ) : Lattice :=
  let size := l.size_along axis
  let n_sites := l.sites.length
  let sites := (List.range amount).flatMap fun i =>
    l.sites.map fun s => s.move_axis axis ((i : ℚ) * size)
  let edges := (List.range amount).flatMap fun i =>
    l.edges.map fun e => e.move_along axis i n_sites amount
  Lattice.scale_size_along { l with sites := sites, edges := edges } axis amount

end Lattice

/-- Rust `as u32` conversion applied to an already-floored `f64` value:
negative values saturate to `0` and values above `u32::MAX` saturate to
`u32::MAX` (this saturating behavior of Rust float-to-int casts is what
`Mask::keep` relies on). -/
def f64_to_u32 (z : ℤ) : ℕ :=
  (max 0 (min z (2 ^ 32 - 1))).toNat

/-- A mask, from `mask.rs`: a decoded image exposed through its width, height
and per-pixel alpha channel, plus a pixels-per-unit factor. The backing image
decoder is an external collaborator; its pixel grid is modelled as the
function `alpha`. -/
structure Mask where
  width : ℕ
  height : ℕ
  alpha : ℕ → ℕ → ℕ
  ppu : ℚ

/-- Model of `Mask::keep`: floor the scaled coordinates, cast them to `u32`
(saturating), wrap by the image dimensions, invert the row index, read the
pixel's alpha channel and compare one uniform draw from `[0,1)` against
`alpha/255`. -/
def Mask.keep (m : Mask) (x y : ℚ) (draw : ℚ) : Bool :=
  let i := f64_to_u32 ⌊x * m.ppu⌋ % m.width
  let j := f64_to_u32 ⌊y * m.ppu⌋ % m.height
  let j := m.height - j - 1
  let alpha := m.alpha i j
  let prob : ℚ := (alpha : ℚ) / 255
  decide (draw < prob)

/-- What the specification says `Mask::keep` computes: the pixel column and
row as mathematical floor-mod of the scaled coordinates by the image
dimensions (tiling the whole plane, negative coordinates included), the row
inverted, and the keep decision as one uniform draw against `alpha/255`.
This is the spec-side comparator for the refinement claim about
`Mask.keep`. -/
def Mask.keep_spec (m : Mask) (x y : ℚ) (draw : ℚ) : Bool :=
  let i := (Int.emod ⌊x * m.ppu⌋ m.width).toNat
  let j := (Int.emod ⌊y * m.ppu⌋ m.height).toNat
  let j2 := m.height - j - 1
  decide (draw < (m.alpha i j2 : ℚ) / 255)

/-- Projection of a 3D position on the plane perpendicular to an axis.
Modelled from the spec: `Axis::project_in_plane` belongs to the current
revision of `util.rs`, which is not under `src/`; §4.5 says the projection
keeps "the two non-axis coordinates". -/
def Axis.project_in_plane (axis : Axis) (p : ℚ × ℚ × ℚ) : ℚ × ℚ :=
  match axis with
  | Axis.X => (p.2.1, p.2.2)
  | Axis.Y => (p.1, p.2.2)
  | Axis.Z => (p.1, p.2.1)

namespace Lattice

end Lattice

/-- The `old index -> new index or self` table built by the counter loop of
`Lattice::apply_mask`: position `i` holds the number of kept sites before `i`
(the dense new index) when site `i` is kept, and `i` itself otherwise. -/
def newIndices (n : ℕ) (site_mask : List Bool) : List ℕ :=
  (List.range n).map fun i =>
    if site_mask.getD i false then (site_mask.take i).count true else i

/-- Reference filtering of a list by a parallel boolean mask, used to state
what the enumerate-filter-map pipeline of `apply_mask` computes. -/
def maskFilter {α : Type} : List Bool → List α → List α
  | b :: bs, x :: xs => if b then x :: maskFilter bs xs else maskFilter bs xs
  | _, _ => []

namespace Lattice

/-- Deterministic part of `Lattice::apply_mask`, once the per-site keep
decisions `site_mask` have been sampled: build the `old index -> new index or
self` table with a counter, filter the sites through the mask, drop every
edge with a masked endpoint and reindex the surviving edges. -/
def apply_mask_with (l : Lattice) (site_mask : List Bool) : Lattice :=
  let new_indices : List ℕ := newIndices l.sites.length site_mask
  { l with
    sites := (l.sites.enum.filter fun p => site_mask.getD p.1 false).map Prod.snd
    edges := (l.edges.filter fun e =>
        site_mask.getD e.source false && site_mask.getD e.target false).map
      fun e => e.reindex new_indices }

/-- Model of `Lattice::apply_mask`: sample one keep decision per site, in
site order, consuming one random draw each, then apply the deterministic
filter-and-reindex. -/
def apply_mask (l : Lattice) (m : Mask) (axis : Axis) (draws : ℕ → ℚ) : Lattice :=
  l.apply_mask_with (l.sites.enum.map fun p =>
    m.keep (axis.project_in_plane p.2.position).1 (axis.project_in_plane p.2.position).2
      (draws p.1))

end Lattice

/-- Cumulative-weight sampler state of the rand crate's `WeightedIndex`.
Modelled from the documented behavior of the external `rand` collaborator:
construction keeps the weight list, sampling walks the cumulative sums. -/
structure WeightedIndex where
  weights : List ℕ

/-- Constructor of the external `WeightedIndex` collaborator: errors (which
`Alloy::try_new` converts to `InvalidRatios`) exactly when no weight is
positive, which for `u32` weights means the total is zero — including the
empty list. -/
def WeightedIndex.new (weights : List ℕ) : Except VegasLatticeError WeightedIndex :=
  if weights.sum = 0 then Except.error VegasLatticeError.InvalidRatios
  else Except.ok { weights := weights }

/-- Index selected by a uniform draw `x` in `[0, total)` against a weight
list: the first index whose cumulative weight exceeds `x`. -/
def pickIndex : List ℕ → ℕ → ℕ
  | [], _ => 0
  | w :: ws, x => if x < w then 0 else pickIndex ws (x - w) + 1

/-- Sampling of the external `WeightedIndex` collaborator, fed by one uniform
draw `x` in `[0, total)`. -/
def WeightedIndex.sample (w : WeightedIndex) (x : ℕ) : ℕ :=
  pickIndex w.weights x

/-- An alloy, from `alloy.rs`: kinds plus the weighted sampler. -/
structure Alloy where
  kinds : List String
  weights : WeightedIndex

namespace Alloy

/-- Model of `Alloy::try_new`. -/
def try_new (kinds : List String) (ratios : List ℕ) : Except VegasLatticeError Alloy :=
  if kinds.length ≠ ratios.length then Except.error VegasLatticeError.InvalidRatios
  else
    match WeightedIndex.new ratios with
    | Except.error e => Except.error e
    | Except.ok w => Except.ok { kinds := kinds, weights := w }

/-- Model of `Alloy::pick`: index the kinds by one weighted sample. The Rust
code indexes the vector directly; the default only covers the out-of-range
case that the constructed invariant excludes. -/
def pick (a : Alloy) (x : ℕ) : String :=
  a.kinds.getD (a.weights.sample x) ""

end Alloy

/-- Recursion of `Lattice::alloy_sites` over the site list: a site of another
kind is kept and consumes no randomness; a site of the source kind is rekinded
by one `Alloy::pick`, consuming the next draw. -/
def alloySitesAux (source : String) (target : Alloy) (draws : ℕ → ℕ) :
    ℕ → List Site → List Site
  | _, [] => []
  | k, s :: ss =>
    if s.kind ≠ source then s :: alloySitesAux source target draws k ss
    else s.with_kind (target.pick (draws k)) :: alloySitesAux source target draws (k + 1) ss

/-- Model of `Lattice::alloy_sites`. -/
def Lattice.alloy_sites (l : Lattice) (source : String) (target : Alloy)
    (draws : ℕ → ℕ) : Lattice :=
  { l with sites := alloySitesAux source target draws 0 l.sites }

/-- JSON document values, the wire format handled by the external serde_json
collaborator. -/
inductive Json where
  | null
  | num (q : ℚ)
  | str (s : String)
  | arr (xs : List Json)
  | obj (fields : List (String × Json))

namespace Json

/-- Field lookup in a JSON object. -/
def getField (j : Json) (name : String) : Option Json :=
  match j with
  | Json.obj fields => fields.lookup name
  | _ => none

/-- Expect a JSON string. -/
def asStr : Json → Option String
  | Json.str s => some s
  | _ => none

/-- Expect a JSON number. -/
def asNum : Json → Option ℚ
  | Json.num q => some q
  | _ => none

/-- Expect a JSON array. -/
def asArr : Json → Option (List Json)
  | Json.arr xs => some xs
  | _ => none

/-- Expect a JSON number that is a non-negative integer (`usize`). -/
def asNat (j : Json) : Option ℕ := do
  let q ← j.asNum
  if q.den = 1 ∧ 0 ≤ q.num then some q.num.toNat else none

/-- Expect a JSON number that is an integer (`i32`). -/
def asInt (j : Json) : Option ℤ := do
  let q ← j.asNum
  if q.den = 1 then some q.num else none

/-- Expect a three-number JSON array of `f64`. -/
def asQTriple : Json → Option (ℚ × ℚ × ℚ)
  | Json.arr [Json.num a, Json.num b, Json.num c] => some (a, b, c)
  | _ => none

/-- Expect a three-number JSON array of `i32`. -/
def asIntTriple (j : Json) : Option (ℤ × ℤ × ℤ) :=
  match j with
  | Json.arr [a, b, c] => do pure (← a.asInt, ← b.asInt, ← c.asInt)
  | _ => none

end Json

/-- Serialization of an optional tag list: serde derives `None` to `null` and
`Some` to the string array. -/
def tagsToJson : Option (List String) → Json
  | none => Json.null
  | some ts => Json.arr (ts.map Json.str)

/-- Deserialization of the optional `tags` field: an absent field or an
explicit `null` is `None`, a string array is `Some`. -/
def tagsFromJson (j : Json) : Option (Option (List String)) :=
  match j.getField "tags" with
  | none => some none
  | some Json.null => some none
  | some (Json.arr xs) => (xs.mapM Json.asStr).map some
  | some _ => none

/-- Derived serde serialization of a `Site`. -/
def Site.toJson (s : Site) : Json :=
  Json.obj
    [("kind", Json.str s.kind),
     ("position", Json.arr [Json.num s.position.1, Json.num s.position.2.1,
       Json.num s.position.2.2]),
     ("tags", tagsToJson s.tags)]

/-- Derived serde deserialization of a `Site`. -/
def Site.fromJson (j : Json) : Option Site := do
  let kindJ ← j.getField "kind"
  let kind ← kindJ.asStr
  let positionJ ← j.getField "position"
  let position ← positionJ.asQTriple
  let tags ← tagsFromJson j
  pure { kind := kind, position := position, tags := tags }

/-- Derived serde serialization of an `Edge`. -/
def Edge.toJson (e : Edge) : Json :=
  Json.obj
    [("source", Json.num e.source),
     ("target", Json.num e.target),
     ("delta", Json.arr [Json.num e.delta.1, Json.num e.delta.2.1, Json.num e.delta.2.2]),
     ("tags", tagsToJson e.tags)]

/-- Derived serde deserialization of an `Edge`. -/
def Edge.fromJson (j : Json) : Option Edge := do
  let sourceJ ← j.getField "source"
  let source ← sourceJ.asNat
  let targetJ ← j.getField "target"
  let target ← targetJ.asNat
  let deltaJ ← j.getField "delta"
  let delta ← deltaJ.asIntTriple
  let tags ← tagsFromJson j
  pure { source := source, target := target, delta := delta, tags := tags }

/-- Derived serde serialization of a `Lattice`. -/
def Lattice.toJson (l : Lattice) : Json :=
  Json.obj
    [("size", Json.arr [Json.num l.size.1, Json.num l.size.2.1, Json.num l.size.2.2]),
     ("sites", Json.arr (l.sites.map Site.toJson)),
     ("edges", Json.arr (l.edges.map Edge.toJson))]

/-- Derived serde deserialization of a `Lattice`. -/
def Lattice.fromJson (j : Json) : Option Lattice := do
  let sizeJ ← j.getField "size"
  let size ← sizeJ.asQTriple
  let sitesJ ← j.getField "sites"
  let sitesA ← sitesJ.asArr
  let sites ← sitesA.mapM Site.fromJson
  let edgesJ ← j.getField "edges"
  let edgesA ← edgesJ.asArr
  let edges ← edgesA.mapM Edge.fromJson
  pure { size := size, sites := sites, edges := edges }

/-- Model of `impl FromStr for Lattice`: deserialize the document (the
text-to-document layer is the external serde_json collaborator, modelled at
the document level), then validate. -/
def Lattice.from_str_model (j : Json) : Except VegasLatticeError Lattice :=
  match Lattice.fromJson j with
  | none => Except.error VegasLatticeError.JsonParseError
  | some l => l.validate

/-! Section: Helper lemmas about `python_mod` -/

lemma tmod_neg_left (a b : ℤ) : Int.tmod (-a) b = -(Int.tmod a b) := by
  rw [Int.tmod_def, Int.tmod_def, Int.neg_tdiv]
  ring

lemma python_mod_add (num : ℤ) (M : ℕ) :
    (python_mod num M).1 + (python_mod num M).2 * M = num := by
  have h := Int.tmod_add_tdiv num (M : ℤ)
  unfold python_mod
  split
  · simp only
    linear_combination h
  · simp only
    linear_combination h

lemma python_mod_fst_nonneg (num : ℤ) (M : ℕ) (h : 0 < M ∨ 0 ≤ num) :
    0 ≤ (python_mod num M).1 := by
  unfold python_mod
  split
  · rename_i hneg
    have hM : 0 < M := h.resolve_right (by omega)
    have h1 : Int.tmod (-num) (M : ℤ) < (M : ℤ) :=
      Int.tmod_lt_of_pos (-num) (by exact_mod_cast hM)
    have h2 : Int.tmod num (M : ℤ) = -(Int.tmod (-num) (M : ℤ)) := by
      rw [← tmod_neg_left, neg_neg]
    simp only
    omega
  · rename_i hpos
    exact Int.tmod_nonneg (M : ℤ) (by omega)

lemma python_mod_fst_lt (num : ℤ) (M : ℕ) (hM : 0 < M) (hlow : -(M : ℤ) < num) :
    (python_mod num M).1 < M := by
  unfold python_mod
  split
  · rename_i hneg
    have h2 : Int.tmod num (M : ℤ) = -(Int.tmod (-num) (M : ℤ)) := by
      rw [← tmod_neg_left, neg_neg]
    have h3 : Int.tmod (-num) (M : ℤ) = -num :=
      Int.tmod_eq_of_lt (by omega) (by omega)
    simp only
    omega
  · rename_i hpos
    exact Int.tmod_lt_of_pos num (by exact_mod_cast hM)

/-! Section: C1: wrap-around arithmetic of `Edge::move_along` / `python_mod` -/

/-- C1 (code bug evaluation): the claim says the wrapped replica index always
lies in `[0, amount)` with floor-division carry, "including when `i + d` is a
negative exact multiple of `amount`". At exactly such an input the code
disagrees: for the edge `(0, 0, delta = (-2, 0, 0))` placed in replica `i = 0`
of an expansion of a 1-site lattice by `amount = 2`, `python_mod (-2) 2`
returns `(2, -2)`, so the remapped edge gets target index `2` (out of
`[0, 2)`, an inconsistent site index) and axis delta `-2`, whereas the
floor-division semantics demanded by the claim gives wrapped index
`(-2) mod 2 = 0` and carry `⌊-2 / 2⌋ = -1`. -/
theorem c1_move_along_negative_multiple_eval :
    ((Edge.new 0 0 (-2, 0, 0)).move_along Axis.X 0 1 2).target = 2 ∧
    ((Edge.new 0 0 (-2, 0, 0)).move_along Axis.X 0 1 2).delta = (-2, 0, 0) ∧
    python_mod (-2) 2 = (2, -2) ∧
    Int.emod (-2) 2 = 0 ∧ Int.ediv (-2) 2 = -1 := by
  refine ⟨rfl, rfl, ?_, by decide, by decide⟩
  unfold python_mod
  decide

/-! Section: C6: `Lattice::drop_along` -/

/-- C6: `drop_along` removes exactly the edges whose delta component along
the axis is non-zero (every kept edge has zero delta there and every
zero-delta edge survives, unchanged and in filter order), leaves sites and
size untouched, and is idempotent. -/
theorem drop_along_spec (l : Lattice) (axis : Axis) :
    ((l.drop_along axis).sites = l.sites) ∧
    ((l.drop_along axis).size = l.size) ∧
    ((l.drop_along axis).edges = l.edges.filter fun e => decide (e.delta_along axis = 0)) ∧
    ((l.drop_along axis).drop_along axis = l.drop_along axis) ∧
    (∀ e ∈ l.edges, e.delta_along axis = 0 → e ∈ (l.drop_along axis).edges) ∧
    (∀ e ∈ (l.drop_along axis).edges, e.delta_along axis = 0 ∧ e ∈ l.edges) := by
  refine ⟨rfl, rfl, rfl, ?_, ?_, ?_⟩
  · simp [Lattice.drop_along, List.filter_filter]
  · intro e he h0
    simp only [Lattice.drop_along, List.mem_filter]
    exact ⟨he, by simp [h0]⟩
  · intro e he
    simp only [Lattice.drop_along, List.mem_filter, decide_eq_true_eq] at he
    exact ⟨he.2, he.1⟩

/-- Witness for C6 at a concrete lattice: dropping twice along X on the
simple cubic cell equals dropping once. -/
theorem drop_along_spec_witness :
    ((Lattice.sc 1).drop_along Axis.X).drop_along Axis.X = (Lattice.sc 1).drop_along Axis.X :=
  (drop_along_spec (Lattice.sc 1) Axis.X).2.2.2.1

/-! Section: C3: the expansion count law -/

lemma length_range_flatMap_map {α β : Type} (m : ℕ) (xs : List α) (f : ℕ → α → β) :
    ((List.range m).flatMap fun i => xs.map (f i)).length = m * xs.length := by
  induction m with
  | zero => simp
  | succ n ih =>
    rw [List.range_succ, List.flatMap_append]
    simp [ih, Nat.succ_mul]

lemma getElem_range_flatMap_map {α β : Type} (m : ℕ) (xs : List α) (f : ℕ → α → β)
    (i k : ℕ) (hi : i < m) (hk : k < xs.length) :
    ((List.range m).flatMap fun j => xs.map (f j))[i * xs.length + k]? =
      xs[k]?.map (f i) := by
  induction m with
  | zero => omega
  | succ n ih =>
    rw [List.range_succ, List.flatMap_append]
    rcases Nat.lt_or_ge i n with hin | hin
    · rw [List.getElem?_append_left]
      · exact ih hin
      · rw [length_range_flatMap_map]
        calc i * xs.length + k < i * xs.length + xs.length := by omega
          _ = (i + 1) * xs.length := by ring
          _ ≤ n * xs.length := Nat.mul_le_mul_right _ (by omega)
    · have hieq : i = n := by omega
      subst hieq
      rw [List.getElem?_append_right]
      · rw [length_range_flatMap_map]
        simp only [List.flatMap_cons, List.flatMap_nil, List.append_nil]
        have : i * xs.length + k - i * xs.length = k := by omega
        rw [this, List.getElem?_map]
      · rw [length_range_flatMap_map]
        omega

/-- C3: expanding an `n`-site, `e`-edge lattice by `m` along an axis yields
exactly `m*n` sites and `m*e` edges, scales the size component along that
axis by `m`, and places original site `k` of replica `i` at global index
`i*n + k`, translated by `i` times the original extent along the axis. -/
theorem expand_along_counts (l : Lattice) (axis : Axis) (amount i k : ℕ)
    (hi : i < amount) (hk : k < l.sites.length) :
    (l.expand_along axis amount).sites.length = amount * l.sites.length ∧
    (l.expand_along axis amount).edges.length = amount * l.edges.length ∧
    (l.expand_along axis amount).size_along axis = l.size_along axis * amount ∧
    (l.expand_along axis amount).sites[i * l.sites.length + k]? =
      l.sites[k]?.map fun s => s.move_axis axis ((i : ℚ) * l.size_along axis) := by
  have hsites :
      (l.expand_along axis amount).sites =
        (List.range amount).flatMap fun j =>
          l.sites.map fun s => s.move_axis axis ((j : ℚ) * l.size_along axis) := by
    cases axis <;> rfl
  have hedges :
      (l.expand_along axis amount).edges =
        (List.range amount).flatMap fun j =>
          l.edges.map fun e => e.move_along axis j l.sites.length amount := by
    cases axis <;> rfl
  refine ⟨?_, ?_, ?_, ?_⟩
  · rw [hsites, length_range_flatMap_map]
  · rw [hedges, length_range_flatMap_map]
  · cases axis <;>
      simp [Lattice.expand_along, Lattice.scale_size_along, Lattice.size_along, mul_comm]
  · rw [hsites, getElem_range_flatMap_map amount l.sites _ i k hi hk]

/-- Witness for C3: the simple cubic cell expanded by 2 along X has `2*1`
sites, `2*3` edges, doubled size along X, and site 0 of replica 1 sits at
global index `1*1 + 0`, translated by one X-extent. -/
theorem expand_along_counts_witness :
    ((Lattice.sc 1).expand_along Axis.X 2).sites.length = 2 * (Lattice.sc 1).sites.length ∧
    ((Lattice.sc 1).expand_along Axis.X 2).edges.length = 2 * (Lattice.sc 1).edges.length ∧
    ((Lattice.sc 1).expand_along Axis.X 2).size_along Axis.X =
      (Lattice.sc 1).size_along Axis.X * 2 ∧
    ((Lattice.sc 1).expand_along Axis.X 2).sites[1 * (Lattice.sc 1).sites.length + 0]? =
      (Lattice.sc 1).sites[0]?.map
        (fun s => s.move_axis Axis.X ((1 : ℕ) * (Lattice.sc 1).size_along Axis.X)) :=
  expand_along_counts (Lattice.sc 1) Axis.X 2 1 0 (by decide) (by decide)

/-! Section: C4: expansion is associative along one axis -/

attribute [ext] Site Edge Lattice

lemma with_delta_along_idem (e : Edge) (axis : Axis) (d1 d2 : ℤ) :
    (e.with_delta_along axis d1).with_delta_along axis d2 = e.with_delta_along axis d2 := by
  cases axis <;> rfl

lemma delta_along_with_delta_along (e : Edge) (axis : Axis) (d : ℤ) :
    (e.with_delta_along axis d).delta_along axis = d := by
  cases axis <;> rfl

lemma with_delta_along_source (e : Edge) (axis : Axis) (d : ℤ) :
    (e.with_delta_along axis d).source = e.source := by
  cases axis <;> rfl

lemma with_delta_along_target (e : Edge) (axis : Axis) (d : ℤ) :
    (e.with_delta_along axis d).target = e.target := by
  cases axis <;> rfl

lemma with_delta_along_tags (e : Edge) (axis : Axis) (d : ℤ) :
    (e.with_delta_along axis d).tags = e.tags := by
  cases axis <;> rfl

lemma move_axis_move_axis (s : Site) (axis : Axis) (q1 q2 : ℚ) :
    (s.move_axis axis q1).move_axis axis q2 = s.move_axis axis (q1 + q2) := by
  cases axis <;>
    simp [Site.move_axis, Site.move_x, Site.move_y, Site.move_z, add_assoc]

/-- Key arithmetic step of associativity: feeding the wrapped target and
carry of a first `python_mod` pass (over modulus `a*n0`) into a second pass
(over modulus `b*(a*n0)`) gives the same result as one pass of the combined
value over modulus `(a*b)*n0` — and this holds for the code's actual
`python_mod`, including its behavior at negative exact multiples. -/
lemma python_mod_compose (num1 : ℤ) (j a n0 b : ℕ)
    (h1 : 0 ≤ (python_mod num1 (a * n0)).1) :
    python_mod
        ((((python_mod num1 (a * n0)).1.toNat + j * (a * n0) : ℕ) : ℤ) +
          (python_mod num1 (a * n0)).2 * ((a * n0) : ℕ))
        (b * (a * n0)) =
      python_mod (num1 + (j : ℤ) * ((a * n0) : ℕ)) ((a * b) * n0) := by
  have hadd := python_mod_add num1 (a * n0)
  have harg :
      (((python_mod num1 (a * n0)).1.toNat + j * (a * n0) : ℕ) : ℤ) +
          (python_mod num1 (a * n0)).2 * ((a * n0) : ℕ) =
        num1 + (j : ℤ) * ((a * n0) : ℕ) := by
    push_cast [Int.toNat_of_nonneg h1]
    push_cast at hadd
    linarith
  rw [harg]
  congr 1
  ring

/-- Composing two `Edge::move_along` passes (first within an `a`-fold
expansion of an `n0`-site cell, then within a `b`-fold expansion of the
resulting `a*n0`-site cell) equals one pass within the `a*b`-fold expansion,
replica `j*a + i`. -/
lemma with_delta_along_update (e : Edge) (axis : Axis) (d : ℤ) (v w : ℕ) :
    { e.with_delta_along axis d with source := v, target := w } =
      ({ e with source := v, target := w }).with_delta_along axis d := by
  cases axis <;> rfl

lemma move_along_comp (e : Edge) (axis : Axis) (i j n0 a b : ℕ) (ha : 0 < a) :
    (e.move_along axis i n0 a).move_along axis j (a * n0) b =
      e.move_along axis (j * a + i) n0 (a * b) := by
  have hM : 0 < a * n0 ∨
      0 ≤ ((e.target + i * n0 : ℕ) : ℤ) + e.delta_along axis * ((n0 : ℕ) : ℤ) := by
    rcases Nat.eq_zero_or_pos n0 with h0 | h0
    · right
      simp [h0]
    · left
      exact Nat.mul_pos ha h0
  have h1 := python_mod_fst_nonneg
    (((e.target + i * n0 : ℕ) : ℤ) + e.delta_along axis * ((n0 : ℕ) : ℤ)) (a * n0) hM
  simp only [Edge.move_along, with_delta_along_source, with_delta_along_target,
    delta_along_with_delta_along, with_delta_along_update, with_delta_along_idem]
  rw [python_mod_compose _ j a n0 b h1]
  have harg :
      ((e.target + i * n0 : ℕ) : ℤ) + e.delta_along axis * ((n0 : ℕ) : ℤ) +
          (j : ℤ) * ((a * n0 : ℕ) : ℤ) =
        ((e.target + (j * a + i) * n0 : ℕ) : ℤ) + e.delta_along axis * ((n0 : ℕ) : ℤ) := by
    push_cast
    ring
  rw [harg]
  have hsrc : e.source + i * n0 + j * (a * n0) = e.source + (j * a + i) * n0 := by ring
  rw [hsrc]

lemma range_flatMap_map_comp {α β γ : Type} (a b : ℕ) (xs : List α)
    (f : ℕ → α → β) (g : ℕ → β → γ) (h : ℕ → α → γ)
    (hcomp : ∀ i j x, i < a → j < b → g j (f i x) = h (j * a + i) x) :
    (List.range b).flatMap
        (fun j => ((List.range a).flatMap fun i => xs.map (f i)).map (g j)) =
      (List.range (a * b)).flatMap fun k => xs.map (h k) := by
  induction b with
  | zero => simp
  | succ n ih =>
    rw [List.range_succ, List.flatMap_append]
    rw [show a * (n + 1) = a * n + a by ring, List.range_add, List.flatMap_append]
    congr 1
    · exact ih fun i j x hi hj => hcomp i j x hi (by omega)
    · simp only [List.flatMap_cons, List.flatMap_nil, List.append_nil]
      rw [List.map_flatMap, List.flatMap_map]
      rw [List.flatMap_def, List.flatMap_def]
      apply congrArg List.flatten
      apply List.map_congr_left
      intro i hi
      simp only [Function.comp_apply, List.map_map]
      apply List.map_congr_left
      intro x _
      simp only [Function.comp_apply]
      rw [hcomp i n x (List.mem_range.mp hi) (by omega)]
      congr 1
      ring

lemma expand_along_sites (l : Lattice) (axis : Axis) (amount : ℕ) :
    (l.expand_along axis amount).sites =
      (List.range amount).flatMap fun i =>
        l.sites.map fun s => s.move_axis axis ((i : ℚ) * l.size_along axis) := by
  cases axis <;> rfl

lemma expand_along_edges (l : Lattice) (axis : Axis) (amount : ℕ) :
    (l.expand_along axis amount).edges =
      (List.range amount).flatMap fun i =>
        l.edges.map fun e => e.move_along axis i l.sites.length amount := by
  cases axis <;> rfl

lemma expand_along_size_along (l : Lattice) (axis : Axis) (amount : ℕ) :
    (l.expand_along axis amount).size_along axis = l.size_along axis * amount := by
  cases axis <;>
    simp [Lattice.expand_along, Lattice.scale_size_along, Lattice.size_along]

lemma expand_along_sites_length (l : Lattice) (axis : Axis) (amount : ℕ) :
    (l.expand_along axis amount).sites.length = amount * l.sites.length := by
  rw [expand_along_sites, length_range_flatMap_map]

/-- C4: expansion is associative along one axis: expanding by `a` and then by
`b` along the same axis yields exactly the same lattice (site sequence, edge
sequence and size; the rational model makes the positions exact, so they
agree well within the claim's 1e-10 tolerance) as expanding once by `a*b`. -/
theorem expand_along_assoc (l : Lattice) (axis : Axis) (a b : ℕ)
    (ha : 0 < a) (hb : 0 < b) :
    (l.expand_along axis a).expand_along axis b = l.expand_along axis (a * b) := by
  refine Lattice.ext ?_ ?_ ?_
  · cases axis <;>
      simp [Lattice.expand_along, Lattice.scale_size_along, Prod.ext_iff] <;>
      push_cast <;> ring
  · rw [expand_along_sites, expand_along_sites, expand_along_sites,
      expand_along_size_along]
    apply range_flatMap_map_comp
    intro i j s hi hj
    rw [move_axis_move_axis]
    congr 1
    push_cast
    ring
  · rw [expand_along_edges, expand_along_edges, expand_along_edges,
      expand_along_sites_length]
    apply range_flatMap_map_comp
    intro i j e hi hj
    exact move_along_comp e axis i j l.sites.length a b ha

/-- Witness for C4: doubling the simple cubic cell twice along X equals
expanding it once by `2*2`. -/
theorem expand_along_assoc_witness :
    ((Lattice.sc 1).expand_along Axis.X 2).expand_along Axis.X 2 =
      (Lattice.sc 1).expand_along Axis.X (2 * 2) :=
  expand_along_assoc (Lattice.sc 1) Axis.X 2 2 (by decide) (by decide)

/-! Section: C5 and C10: mask-based filtering and reindexing -/

lemma maskFilter_nil_right {α : Type} (mask : List Bool) :
    maskFilter mask ([] : List α) = [] := by
  cases mask <;> rfl

lemma enum_filter_eq_maskFilter {α : Type} :
    ∀ (xs : List α) (mask : List Bool),
      (xs.enum.filter fun p => mask.getD p.1 false).map Prod.snd = maskFilter mask xs := by
  intro xs
  induction xs with
  | nil =>
    intro mask
    simp [maskFilter_nil_right]
  | cons x xs ih =>
    intro mask
    cases mask with
    | nil =>
      have hfalse : ∀ p : ℕ × α, (([] : List Bool).getD p.1 false) = false := by
        intro p
        simp
      simp [maskFilter, hfalse]
    | cons m ms =>
      have h1 : List.filter
            ((fun p : ℕ × α => (m :: ms).getD p.1 false) ∘ Prod.map (· + 1) id) xs.enum =
          List.filter (fun p : ℕ × α => ms.getD p.1 false) xs.enum := by
        apply List.filter_congr
        intro p _
        simp
      have h2 : ∀ L : List (ℕ × α),
          L.map (Prod.snd ∘ (Prod.map (· + 1) id : ℕ × α → ℕ × α)) = L.map Prod.snd := by
        intro L
        apply List.map_congr_left
        intro p _
        simp
      rw [List.enum_cons', List.filter_cons, List.filter_map, h1]
      cases m
      · rw [if_neg (by simp)]
        rw [List.map_map, h2]
        simpa [maskFilter] using ih ms
      · rw [if_pos (by simp)]
        rw [List.map_cons, List.map_map, h2]
        simpa [maskFilter] using ih ms

lemma maskFilter_length {α : Type} :
    ∀ (mask : List Bool) (xs : List α), mask.length = xs.length →
      (maskFilter mask xs).length = mask.count true := by
  intro mask
  induction mask with
  | nil =>
    intro xs h
    simp [maskFilter]
  | cons m ms ih =>
    intro xs h
    cases xs with
    | nil => simp at h
    | cons x xs =>
      have h' : ms.length = xs.length := by simpa using h
      cases m
      · simp [maskFilter, ih xs h', List.count_cons]
      · simp [maskFilter, ih xs h', List.count_cons]

lemma maskFilter_getElem {α : Type} :
    ∀ (mask : List Bool) (xs : List α) (i : ℕ), mask.length = xs.length →
      i < xs.length → mask.getD i false = true →
      (maskFilter mask xs)[(mask.take i).count true]? = xs[i]? := by
  intro mask
  induction mask with
  | nil =>
    intro xs i h hi hm
    simp at hm
  | cons m ms ih =>
    intro xs i h hi hm
    cases xs with
    | nil => simp at hi
    | cons x xs =>
      have h' : ms.length = xs.length := by simpa using h
      cases i with
      | zero =>
        simp only [List.getD_cons_zero] at hm
        subst hm
        simp [maskFilter]
      | succ n =>
        simp only [List.getD_cons_succ] at hm
        have hi' : n < xs.length := by simpa using hi
        cases m
        · simpa [maskFilter, List.take_succ_cons, List.count_cons] using ih xs n h' hi' hm
        · simpa [maskFilter, List.take_succ_cons, List.count_cons] using ih xs n h' hi' hm

lemma count_take_lt (mask : List Bool) (i : ℕ) (hi : i < mask.length)
    (hm : mask.getD i false = true) :
    (mask.take i).count true < mask.count true := by
  conv_rhs => rw [← List.take_append_drop i mask]
  rw [List.count_append, List.drop_eq_getElem_cons hi, List.count_cons]
  have hmi : mask[i] = true := by rwa [List.getD_eq_getElem _ _ hi] at hm
  simp [hmi]

lemma newIndices_length (n : ℕ) (mask : List Bool) : (newIndices n mask).length = n := by
  simp [newIndices]

lemma newIndices_getElem (n : ℕ) (mask : List Bool) (i : ℕ) (hi : i < n) :
    (newIndices n mask)[i]? =
      some (if mask.getD i false then (mask.take i).count true else i) := by
  unfold newIndices
  rw [List.getElem?_map]
  simp [List.getElem?_range hi]

lemma newIndices_getD (n : ℕ) (mask : List Bool) (i : ℕ) (hi : i < n) :
    (newIndices n mask).getD i 0 =
      if mask.getD i false then (mask.take i).count true else i := by
  rw [List.getD_eq_getElem?_getD, newIndices_getElem n mask i hi]
  rfl

lemma apply_mask_with_sites (l : Lattice) (mask : List Bool) :
    (l.apply_mask_with mask).sites =
      (l.sites.enum.filter fun p => mask.getD p.1 false).map Prod.snd := rfl

lemma apply_mask_with_edges (l : Lattice) (mask : List Bool) :
    (l.apply_mask_with mask).edges =
      (l.edges.filter fun e => mask.getD e.source false && mask.getD e.target false).map
        fun e => e.reindex (newIndices l.sites.length mask) := rfl

lemma apply_mask_with_sites_length (l : Lattice) (mask : List Bool)
    (hlen : mask.length = l.sites.length) :
    (l.apply_mask_with mask).sites.length = mask.count true := by
  rw [apply_mask_with_sites, enum_filter_eq_maskFilter,
    maskFilter_length mask l.sites hlen]

lemma apply_mask_with_endpoint_bounds (l : Lattice) (mask : List Bool)
    (hlen : mask.length = l.sites.length)
    (hcons : ∀ e ∈ l.edges, e.source < l.sites.length ∧ e.target < l.sites.length) :
    ∀ e2 ∈ (l.apply_mask_with mask).edges,
      e2.source < (l.apply_mask_with mask).sites.length ∧
      e2.target < (l.apply_mask_with mask).sites.length := by
  have hslen := apply_mask_with_sites_length l mask hlen
  intro e2 he2
  rw [apply_mask_with_edges] at he2
  obtain ⟨e, he, rfl⟩ := List.mem_map.mp he2
  obtain ⟨hmem, hkeep⟩ := List.mem_filter.mp he
  rw [Bool.and_eq_true] at hkeep
  obtain ⟨hks, hkt⟩ := hkeep
  obtain ⟨hsb, htb⟩ := hcons e hmem
  constructor
  · show (newIndices l.sites.length mask).getD e.source 0 < _
    rw [newIndices_getD _ _ _ hsb, if_pos hks, hslen]
    exact count_take_lt mask e.source (by omega) hks
  · show (newIndices l.sites.length mask).getD e.target 0 < _
    rw [newIndices_getD _ _ _ htb, if_pos hkt, hslen]
    exact count_take_lt mask e.target (by omega) hkt

/-- C5: after `apply_mask` (whose sampling phase produces exactly one boolean
per site, here an arbitrary `mask` of that length) on a lattice with
consistent edges: the surviving sites are the mask-filtered originals in
original relative order, renumbered densely onto `0..(count of kept)`; every
edge with a removed endpoint is dropped and every surviving edge is rewritten
through the old-to-new table, so both endpoints index surviving sites. -/
theorem apply_mask_spec (l : Lattice) (mask : List Bool)
    (hlen : mask.length = l.sites.length)
    (hcons : ∀ e ∈ l.edges, e.source < l.sites.length ∧ e.target < l.sites.length) :
    (∀ (m : Mask) (axis : Axis) (draws : ℕ → ℚ),
      l.apply_mask m axis draws =
        l.apply_mask_with (l.sites.enum.map fun p =>
          m.keep (axis.project_in_plane p.2.position).1
            (axis.project_in_plane p.2.position).2 (draws p.1))) ∧
    (l.apply_mask_with mask).sites = maskFilter mask l.sites ∧
    (l.apply_mask_with mask).sites.length = mask.count true ∧
    (∀ i, i < l.sites.length → mask.getD i false = true →
      (l.apply_mask_with mask).sites[(mask.take i).count true]? = l.sites[i]?) ∧
    ((l.apply_mask_with mask).edges = (l.edges.filter fun e =>
        mask.getD e.source false && mask.getD e.target false).map
      fun e => e.reindex (newIndices l.sites.length mask)) ∧
    (∀ e2 ∈ (l.apply_mask_with mask).edges,
      e2.source < (l.apply_mask_with mask).sites.length ∧
      e2.target < (l.apply_mask_with mask).sites.length) := by
  have hsites : (l.apply_mask_with mask).sites = maskFilter mask l.sites := by
    rw [apply_mask_with_sites, enum_filter_eq_maskFilter]
  refine ⟨fun m axis draws => rfl, hsites, apply_mask_with_sites_length l mask hlen, ?_,
    rfl, apply_mask_with_endpoint_bounds l mask hlen hcons⟩
  intro i hi hm
  rw [hsites]
  exact maskFilter_getElem mask l.sites i hlen hi hm

/-- Witness for C5 at the simple cubic cell with the all-keep mask: the
masked lattice keeps its single site. -/
theorem apply_mask_spec_witness :
    ((Lattice.sc 1).apply_mask_with [true]).sites.length = [true].count true :=
  (apply_mask_spec (Lattice.sc 1) [true] (by decide) (by decide)).2.2.1

/-- C10: the old-to-new table of `apply_mask` maps every kept site to its
dense rank and every removed site to its own old index; on a lattice with
consistent edges the reindexing reads of every surviving edge are in bounds
(the fallible `reindex?` succeeds, so the Rust indexing cannot panic), and
the surviving edges' reindexing result is unchanged under any table that
agrees with the real one on the kept indices only — the self-mapped entries
of removed sites are never consulted. -/
theorem apply_mask_reindex_safe (l : Lattice) (mask : List Bool)
    (hlen : mask.length = l.sites.length)
    (hcons : ∀ e ∈ l.edges, e.source < l.sites.length ∧ e.target < l.sites.length) :
    (∀ i, i < l.sites.length →
      (newIndices l.sites.length mask)[i]? =
        some (if mask.getD i false then (mask.take i).count true else i)) ∧
    (∀ e ∈ l.edges.filter fun e =>
        mask.getD e.source false && mask.getD e.target false,
      e.reindex? (newIndices l.sites.length mask) =
        some (e.reindex (newIndices l.sites.length mask))) ∧
    (∀ table2 : List ℕ,
      (∀ i, i < l.sites.length → mask.getD i false = true →
        table2[i]? = (newIndices l.sites.length mask)[i]?) →
      ((l.edges.filter fun e =>
          mask.getD e.source false && mask.getD e.target false).map
        fun e => e.reindex table2) = (l.apply_mask_with mask).edges) := by
  refine ⟨fun i hi => newIndices_getElem _ _ _ hi, ?_, ?_⟩
  · intro e he
    obtain ⟨hmem, hkeep⟩ := List.mem_filter.mp he
    obtain ⟨hsb, htb⟩ := hcons e hmem
    have hs := newIndices_getElem l.sites.length mask e.source hsb
    have ht := newIndices_getElem l.sites.length mask e.target htb
    simp [Edge.reindex?, Edge.reindex, hs, ht, List.getD_eq_getElem?_getD]
  · intro table2 hagree
    rw [apply_mask_with_edges]
    apply List.map_congr_left
    intro e he
    obtain ⟨hmem, hkeep⟩ := List.mem_filter.mp he
    rw [Bool.and_eq_true] at hkeep
    obtain ⟨hks, hkt⟩ := hkeep
    obtain ⟨hsb, htb⟩ := hcons e hmem
    have hs := hagree e.source hsb hks
    have ht := hagree e.target htb hkt
    simp [Edge.reindex, List.getD_eq_getElem?_getD, hs, ht]

/-- Witness for C10 at the simple cubic cell with the all-drop mask: the
table entry of the removed site 0 maps it to itself. -/
theorem apply_mask_reindex_safe_witness :
    (newIndices (Lattice.sc 1).sites.length [false])[0]? =
      some (if ([false] : List Bool).getD 0 false then (([false] : List Bool).take 0).count true
        else 0) :=
  (apply_mask_reindex_safe (Lattice.sc 1) [false] (by decide) (by decide)).1 0 (by decide)

/-! Section: C8: alloy construction and weighted picking -/

lemma pickIndex_lt_length :
    ∀ (ws : List ℕ) (x : ℕ), x < ws.sum → pickIndex ws x < ws.length := by
  intro ws
  induction ws with
  | nil =>
    intro x hx
    simp at hx
  | cons w ws ih =>
    intro x hx
    unfold pickIndex
    split
    · simp
    · rename_i hge
      have hx2 : x - w < ws.sum := by
        simp only [List.sum_cons] at hx
        omega
      simpa using ih (x - w) hx2

lemma pickIndex_weight_pos :
    ∀ (ws : List ℕ) (x : ℕ), x < ws.sum →
      ∃ wk, ws[pickIndex ws x]? = some wk ∧ 0 < wk := by
  intro ws
  induction ws with
  | nil =>
    intro x hx
    simp at hx
  | cons w ws ih =>
    intro x hx
    unfold pickIndex
    split
    · rename_i hlt
      exact ⟨w, by simp, by omega⟩
    · rename_i hge
      have hx2 : x - w < ws.sum := by
        simp only [List.sum_cons] at hx
        omega
      obtain ⟨wk, hwk, hpos⟩ := ih (x - w) hx2
      exact ⟨wk, by simpa using hwk, hpos⟩

/-- C8: `Alloy::try_new` fails with the typed `InvalidRatios` error exactly
when the kind and ratio lists have different lengths or the ratios are all
zero (for `u32` ratios: they sum to zero, which covers the empty case); every
successfully built alloy keeps the given kinds and ratios, and `pick` driven
by any in-range uniform draw returns one of the kinds, selected at an index
whose ratio is strictly positive — a zero-weight kind is never chosen. -/
theorem alloy_spec (kinds : List String) (ratios : List ℕ) :
    (Alloy.try_new kinds ratios = Except.error VegasLatticeError.InvalidRatios ↔
      kinds.length ≠ ratios.length ∨ ratios.sum = 0) ∧
    (∀ a, Alloy.try_new kinds ratios = Except.ok a →
      a.kinds = kinds ∧ a.weights.weights = ratios ∧
      ∀ x, x < ratios.sum →
        a.pick x ∈ kinds ∧
        a.weights.sample x < kinds.length ∧
        ∃ wk, ratios[a.weights.sample x]? = some wk ∧ 0 < wk) := by
  constructor
  · unfold Alloy.try_new WeightedIndex.new
    constructor
    · intro h
      by_cases hlen : kinds.length = ratios.length
      · rw [if_neg (by omega)] at h
        by_cases hsum : ratios.sum = 0
        · right
          exact hsum
        · rw [if_neg hsum] at h
          simp at h
      · left
        exact hlen
    · intro h
      rcases h with h | h
      · rw [if_pos h]
      · by_cases hlen : kinds.length ≠ ratios.length
        · rw [if_pos hlen]
        · rw [if_neg hlen, if_pos h]
  · intro a ha
    unfold Alloy.try_new WeightedIndex.new at ha
    by_cases hlen : kinds.length ≠ ratios.length
    · rw [if_pos hlen] at ha
      exact absurd ha (by simp)
    · rw [if_neg hlen] at ha
      by_cases hsum : ratios.sum = 0
      · rw [if_pos hsum] at ha
        exact absurd ha (by simp)
      · rw [if_neg hsum] at ha
        simp only [Except.ok.injEq] at ha
        subst ha
        refine ⟨rfl, rfl, ?_⟩
        intro x hx
        have hidx := pickIndex_lt_length ratios x hx
        have hklen : pickIndex ratios x < kinds.length := by omega
        refine ⟨?_, hklen, pickIndex_weight_pos ratios x hx⟩
        show kinds.getD (pickIndex ratios x) "" ∈ kinds
        rw [List.getD_eq_getElem kinds "" hklen]
        exact List.getElem_mem hklen

/-- Witness for C8: the `["A", "B"]` alloy with ratios `[100, 0]` picks a
member of its kind list for the draw 50. -/
theorem alloy_spec_witness :
    Alloy.pick { kinds := ["A", "B"], weights := { weights := [100, 0] } } 50 ∈
      ["A", "B"] :=
  (((alloy_spec ["A", "B"] [100, 0]).2
    { kinds := ["A", "B"], weights := { weights := [100, 0] } } rfl).2.2 50
      (by decide)).1

/-! Section: C7: pixel addressing of `Mask::keep` -/

/-- C7 (counterexample): the claim says the pixel column is
`floor(x*ppu) mod image_width` for every planar coordinate, negative ones
included, so the mask tiles the whole plane. But Rust's `as u32` cast
saturates negative floored values to `0`: at `x = -1` (with `ppu = 1`,
width 2) the code reads column `0` while the claimed floor-mod addressing
reads column `1`; with alpha `0` at column 0 and `255` at column 1 the two
disagree on the keep decision for the draw `0`. -/
theorem mask_keep_negative_counterexample :
    Mask.keep
        { width := 2, height := 1, alpha := fun i _ => if i = 0 then 0 else 255, ppu := 1 }
        (-1) 0 0 = false ∧
      Mask.keep_spec
        { width := 2, height := 1, alpha := fun i _ => if i = 0 then 0 else 255, ppu := 1 }
        (-1) 0 0 = true := by
  constructor
  · unfold Mask.keep f64_to_u32
    norm_num
  · unfold Mask.keep_spec
    norm_num

lemma f64_to_u32_mod_eq (z : ℤ) (h0 : 0 ≤ z) (h1 : z < 2 ^ 32) (w : ℕ) :
    f64_to_u32 z % w = (Int.emod z w).toNat := by
  unfold f64_to_u32
  have hmax : max 0 (min z (2 ^ 32 - 1)) = z := by omega
  rw [hmax]
  lift z to ℕ using h0 with n
  rfl

/-- C7 (amended): whenever the floored scaled coordinates are non-negative
and below `2^32` — that is, whenever Rust's saturating `as u32` cast is the
identity — `Mask::keep` computes exactly the claimed floor-mod pixel
addressing with inverted row and keeps the site iff the uniform draw is
below `alpha/255`. (For negative coordinates the cast saturates to pixel
column/row 0 instead of tiling.) -/
theorem mask_keep_spec_of_nonneg (m : Mask) (x y draw : ℚ)
    (hx0 : 0 ≤ ⌊x * m.ppu⌋) (hx1 : ⌊x * m.ppu⌋ < 2 ^ 32)
    (hy0 : 0 ≤ ⌊y * m.ppu⌋) (hy1 : ⌊y * m.ppu⌋ < 2 ^ 32) :
    m.keep x y draw = m.keep_spec x y draw := by
  unfold Mask.keep Mask.keep_spec
  rw [f64_to_u32_mod_eq _ hx0 hx1, f64_to_u32_mod_eq _ hy0 hy1]

/-- Witness for the amended C7 at non-negative coordinates. -/
theorem mask_keep_spec_of_nonneg_witness :
    Mask.keep
        { width := 2, height := 1, alpha := fun i _ => if i = 0 then 0 else 255, ppu := 1 }
        1 0 0 =
      Mask.keep_spec
        { width := 2, height := 1, alpha := fun i _ => if i = 0 then 0 else 255, ppu := 1 }
        1 0 0 :=
  mask_keep_spec_of_nonneg _ 1 0 0 (by norm_num) (by norm_num) (by norm_num) (by norm_num)

/-! Section: C2: which operations can or cannot yield an invalid lattice -/

/-- C2 (counterexample): the claim includes "the sc/bcc/fcc factories with
any f64 parameter" among the operations that return a valid lattice or a
typed error; but `Lattice::sc` is infallible by signature and performs no
validation, so `sc(-1)` is returned as an ordinary lattice whose size
components are all `-1`, violating the non-negative-size invariant. -/
theorem lattice_factories_counterexample : ¬ (Lattice.sc (-1)).valid := by
  intro h
  have h1 := h.2.1
  norm_num [Lattice.sc] at h1

lemma are_edges_consistent_iff (l : Lattice) :
    l.are_edges_consistent = true ↔
      ∀ e ∈ l.edges, e.source < l.sites.length ∧ e.target < l.sites.length := by
  unfold Lattice.are_edges_consistent
  rw [List.all_eq_true]
  constructor
  · intro h e he
    have := h e he
    simp only [Bool.and_eq_true, decide_eq_true_eq] at this
    exact this
  · intro h e he
    simp only [Bool.and_eq_true, decide_eq_true_eq]
    exact h e he

lemma validate_ok_iff (l l2 : Lattice) :
    l.validate = Except.ok l2 ↔ (l2 = l ∧ l.valid) := by
  unfold Lattice.validate Lattice.valid
  by_cases h1 : l.are_edges_consistent = true
  · rw [if_neg (by simpa using h1)]
    by_cases h2 : l.size.1 < 0 ∨ l.size.2.1 < 0 ∨ l.size.2.2 < 0
    · rw [if_pos h2]
      constructor
      · intro h
        exact absurd h (by simp)
      · intro ⟨_, _, hs1, hs2, hs3⟩
        rcases h2 with h2 | h2 | h2 <;> linarith
    · rw [if_neg h2]
      push_neg at h2
      constructor
      · intro h
        have heq : l2 = l := by
          simpa [eq_comm] using h
        exact ⟨heq, (are_edges_consistent_iff l).mp h1, h2.1, h2.2.1, h2.2.2⟩
      · intro ⟨heq, _⟩
        rw [heq]
  · rw [if_pos (by simpa using h1)]
    constructor
    · intro h
      exact absurd h (by simp)
    · intro ⟨_, hcons, _⟩
      exact absurd ((are_edges_consistent_iff l).mpr hcons) h1

lemma alloySitesAux_length (source : String) (t : Alloy) (draws : ℕ → ℕ) :
    ∀ (k : ℕ) (xs : List Site), (alloySitesAux source t draws k xs).length = xs.length := by
  intro k xs
  induction xs generalizing k with
  | nil => rfl
  | cons s ss ih =>
    unfold alloySitesAux
    split
    · simpa using ih k
    · simpa using ih (k + 1)

lemma move_along_source (e : Edge) (axis : Axis) (amount nsites limit : ℕ) :
    (e.move_along axis amount nsites limit).source = e.source + amount * nsites := by
  simp [Edge.move_along, with_delta_along_source]

lemma move_along_target (e : Edge) (axis : Axis) (amount nsites limit : ℕ) :
    (e.move_along axis amount nsites limit).target =
      (python_mod (((e.target + amount * nsites : ℕ) : ℤ) +
        e.delta_along axis * ((nsites : ℕ) : ℤ)) (limit * nsites)).1.toNat := by
  simp [Edge.move_along, with_delta_along_target]

/-- C2 (amended): the fallible constructors (`try_new`, `try_with_size`,
`try_with_sites`, `try_with_edges`, parsing) return only valid lattices or
typed errors; `drop_along`, `alloy_sites` and `apply_mask` preserve validity;
but `sc`/`bcc`/`fcc` do not validate — they yield a valid lattice exactly
when the parameter is non-negative — and `expand_along` preserves validity
only when no edge's delta along the axis reaches `-amount` or below (the
`python_mod` negative-multiple defect of C1 is reachable otherwise). -/
theorem lattice_validity_amended :
    (∀ s l, Lattice.try_new s = Except.ok l → l.valid) ∧
    (∀ (l : Lattice) s l2, l.try_with_size s = Except.ok l2 → l2.valid) ∧
    (∀ (l : Lattice) ss l2, l.try_with_sites ss = Except.ok l2 → l2.valid) ∧
    (∀ (l : Lattice) es l2, l.try_with_edges es = Except.ok l2 → l2.valid) ∧
    (∀ j l, Lattice.from_str_model j = Except.ok l → l.valid) ∧
    (∀ a : ℚ, ((Lattice.sc a).valid ↔ 0 ≤ a) ∧ ((Lattice.bcc a).valid ↔ 0 ≤ a) ∧
      ((Lattice.fcc a).valid ↔ 0 ≤ a)) ∧
    (∀ (l : Lattice) axis, l.valid → (l.drop_along axis).valid) ∧
    (∀ (l : Lattice) s t draws, l.valid → (l.alloy_sites s t draws).valid) ∧
    (∀ (l : Lattice) m axis draws, l.valid → (l.apply_mask m axis draws).valid) ∧
    (∀ (l : Lattice) (axis : Axis) (amount : ℕ), l.valid →
      (∀ e ∈ l.edges, -(amount : ℤ) < e.delta_along axis) →
      (l.expand_along axis amount).valid) := by
  refine ⟨?_, ?_, ?_, ?_, ?_, ?_, ?_, ?_, ?_, ?_⟩
  · intro s l h
    unfold Lattice.try_new at h
    split at h
    · exact absurd h (by simp)
    · rename_i hneg
      push_neg at hneg
      simp only [Except.ok.injEq] at h
      subst h
      exact ⟨by simp, hneg.1, hneg.2.1, hneg.2.2⟩
  · intro l s l2 h
    obtain ⟨heq, hv⟩ := (validate_ok_iff _ l2).mp h
    rw [heq]
    exact hv
  · intro l ss l2 h
    obtain ⟨heq, hv⟩ := (validate_ok_iff _ l2).mp h
    rw [heq]
    exact hv
  · intro l es l2 h
    obtain ⟨heq, hv⟩ := (validate_ok_iff _ l2).mp h
    rw [heq]
    exact hv
  · intro j l h
    unfold Lattice.from_str_model at h
    split at h
    · exact absurd h (by simp)
    · obtain ⟨heq, hv⟩ := (validate_ok_iff _ l).mp h
      rw [heq]
      exact hv
  · intro a
    refine ⟨?_, ?_, ?_⟩
    · constructor
      · intro h
        exact h.2.1
      · intro ha
        refine ⟨?_, ha, ha, ha⟩
        intro e he
        fin_cases he <;> exact ⟨by norm_num [Edge.new, Lattice.sc, Site.new],
          by norm_num [Edge.new, Lattice.sc, Site.new]⟩
    · constructor
      · intro h
        exact h.2.1
      · intro ha
        refine ⟨?_, ha, ha, ha⟩
        intro e he
        fin_cases he <;> exact ⟨by norm_num [Edge.new, Lattice.bcc, Site.new],
          by norm_num [Edge.new, Lattice.bcc, Site.new]⟩
    · constructor
      · intro h
        exact h.2.1
      · intro ha
        refine ⟨?_, ha, ha, ha⟩
        intro e he
        fin_cases he <;> exact ⟨by norm_num [Edge.new, Lattice.fcc, Site.new],
          by norm_num [Edge.new, Lattice.fcc, Site.new]⟩
  · intro l axis hv
    exact ⟨fun e he => hv.1 e (List.mem_of_mem_filter he), hv.2.1, hv.2.2.1, hv.2.2.2⟩
  · intro l s t draws hv
    refine ⟨?_, hv.2.1, hv.2.2.1, hv.2.2.2⟩
    intro e he
    have hlen : (l.alloy_sites s t draws).sites.length = l.sites.length :=
      alloySitesAux_length s t draws 0 l.sites
    rw [hlen]
    exact hv.1 e he
  · intro l m axis draws hv
    have hlen : (l.sites.enum.map fun p =>
        m.keep (axis.project_in_plane p.2.position).1
          (axis.project_in_plane p.2.position).2 (draws p.1)).length = l.sites.length := by
      simp
    refine ⟨apply_mask_with_endpoint_bounds l _ hlen hv.1, hv.2.1, hv.2.2.1, hv.2.2.2⟩
  · intro l axis amount hv hdelta
    constructor
    · intro e2 he2
      rw [expand_along_edges] at he2
      rw [expand_along_sites_length]
      obtain ⟨i, hirange, he2m⟩ := List.mem_flatMap.mp he2
      obtain ⟨e, he, rfl⟩ := List.mem_map.mp he2m
      have hi : i < amount := List.mem_range.mp hirange
      obtain ⟨hsb, htb⟩ := hv.1 e he
      have hn : 0 < l.sites.length := by omega
      have hd := hdelta e he
      constructor
      · rw [move_along_source]
        calc e.source + i * l.sites.length < (i + 1) * l.sites.length := by
              rw [Nat.succ_mul]
              omega
          _ ≤ amount * l.sites.length := Nat.mul_le_mul_right _ (by omega)
      · rw [move_along_target]
        have hM : 0 < amount * l.sites.length := Nat.mul_pos (by omega) hn
        have hlow : -((amount * l.sites.length : ℕ) : ℤ) <
            ((e.target + i * l.sites.length : ℕ) : ℤ) +
              e.delta_along axis * ((l.sites.length : ℕ) : ℤ) := by
          have hstep : ((1 : ℤ) - amount) * l.sites.length ≤
              e.delta_along axis * ((l.sites.length : ℕ) : ℤ) := by
            apply mul_le_mul_of_nonneg_right (by omega)
            positivity
          have hcast : ((e.target + i * l.sites.length : ℕ) : ℤ) ≥ 0 := by positivity
          push_cast
          push_cast at hstep hcast
          nlinarith [hn]
        have hfstlt := python_mod_fst_lt _ _ hM hlow
        have hfstge := python_mod_fst_nonneg
          (((e.target + i * l.sites.length : ℕ) : ℤ) +
            e.delta_along axis * ((l.sites.length : ℕ) : ℤ)) (amount * l.sites.length)
          (Or.inl hM)
        omega
    · obtain ⟨_, h1, h2, h3⟩ := hv
      have hc : (0 : ℚ) ≤ (amount : ℚ) := by positivity
      cases axis
      · exact ⟨mul_nonneg h1 hc, h2, h3⟩
      · exact ⟨h1, mul_nonneg h2 hc, h3⟩
      · exact ⟨h1, h2, mul_nonneg h3 hc⟩

/-- Witness for the amended C2: the simple cubic cell with parameter 1 is
valid. -/
theorem lattice_validity_amended_witness : (Lattice.sc 1).valid ↔ 0 ≤ (1 : ℚ) :=
  (lattice_validity_amended.2.2.2.2.2.1 1).1

/-! Section: C9: JSON round trip -/

lemma mapM_roundtrip {α : Type} (f : α → Json) (g : Json → Option α)
    (h : ∀ x, g (f x) = some x) : ∀ xs : List α, (xs.map f).mapM g = some xs := by
  intro xs
  induction xs with
  | nil => rfl
  | cons x xs ih =>
    rw [List.map_cons, List.mapM_cons, h x, ih]
    rfl

lemma mapM_str_roundtrip (ts : List String) :
    (ts.map Json.str).mapM Json.asStr = some ts :=
  mapM_roundtrip Json.str Json.asStr (fun _ => rfl) ts

lemma tagsFromJson_field (fields : List (String × Json)) (tags : Option (List String))
    (hlook : fields.lookup "tags" = some (tagsToJson tags)) :
    tagsFromJson (Json.obj fields) = some tags := by
  have hget : (Json.obj fields).getField "tags" = some (tagsToJson tags) := hlook
  unfold tagsFromJson
  rw [hget]
  cases tags with
  | none => rfl
  | some ts =>
    show Option.map some ((ts.map Json.str).mapM Json.asStr) = some (some ts)
    rw [mapM_str_roundtrip]
    rfl

lemma site_roundtrip (s : Site) : Site.fromJson s.toJson = some s := by
  unfold Site.toJson Site.fromJson
  rw [tagsFromJson_field _ s.tags (by simp [List.lookup])]
  simp [Json.getField, List.lookup, Json.asStr, Json.asQTriple]

lemma edge_roundtrip (e : Edge) : Edge.fromJson e.toJson = some e := by
  unfold Edge.toJson Edge.fromJson
  rw [tagsFromJson_field _ e.tags (by simp [List.lookup])]
  simp [Json.getField, List.lookup, Json.asNat, Json.asInt, Json.asNum, Json.asIntTriple,
    Rat.den_natCast, Rat.num_natCast, Rat.den_intCast, Rat.num_intCast]

lemma lattice_fromJson_toJson (l : Lattice) : Lattice.fromJson l.toJson = some l := by
  unfold Lattice.toJson Lattice.fromJson
  simp only [Json.getField, List.lookup, Json.asQTriple, Json.asArr]
  show ((l.sites.map Site.toJson).mapM Site.fromJson).bind (fun sites =>
      ((l.edges.map Edge.toJson).mapM Edge.fromJson).bind fun edges =>
        some { size := l.size, sites := sites, edges := edges }) = some l
  rw [mapM_roundtrip Site.toJson Site.fromJson site_roundtrip,
    mapM_roundtrip Edge.toJson Edge.fromJson edge_roundtrip]
  rfl

/-- C9: serializing any valid lattice to the JSON document model and parsing
it back through the `FromStr` pipeline (deserialize, then validate) succeeds
and returns a structurally equal lattice: same size triple, same sites in
order, same edges in order. -/
theorem lattice_json_roundtrip (l : Lattice) (h : l.valid) :
    Lattice.from_str_model l.toJson = Except.ok l := by
  unfold Lattice.from_str_model
  rw [lattice_fromJson_toJson l]
  exact (validate_ok_iff l l).mpr ⟨rfl, h⟩

/-- Witness for C9: the simple cubic cell round-trips through the JSON
document model. -/
theorem lattice_json_roundtrip_witness :
    Lattice.from_str_model (Lattice.sc 1).toJson = Except.ok (Lattice.sc 1) :=
  lattice_json_roundtrip (Lattice.sc 1) (by
    refine ⟨?_, by norm_num [Lattice.sc], by norm_num [Lattice.sc],
      by norm_num [Lattice.sc]⟩
    intro e he
    fin_cases he <;>
      exact ⟨by norm_num [Edge.new, Lattice.sc, Site.new],
        by norm_num [Edge.new, Lattice.sc, Site.new]⟩)

end VegasLattice
